import Mathlib

/-!
Shallow embedding of the core logic of `src/Telegram-bot.py`
(class `StudentProcessorBot`): grade conversion, test-column
categorization, roster parsing, fuzzy identity matching and the
report-assembly pipeline, together with proofs of the specified
properties.

Cell values coming out of a spreadsheet are modelled as either absent
(pandas `NaN` / Python `None`) or a text value.  Python string
primitives (`lower`, `strip`, `split`, substring membership,
`isdigit`, `float(...)`) are embedded as executable Lean functions on
`String` / `List Char`.  Parsed numbers are carried exactly, as the
decimal `m / 10^k` denoted by the literal (Python's binary rounding to
the nearest double is idealized away; it affects none of the values
the properties mention).
-/

/-- A spreadsheet cell: pandas `NaN`/`None` (`absent`) or a text value. -/
inductive Cell where
  | absent : Cell
  | str : String → Cell
deriving DecidableEq, Repr

/-- Python `str.lower` on one character, covering the ASCII and Cyrillic
alphabets that appear in the program (`A`-`Z`, `А`-`Я`, `Ё`). -/
def pyLowerChar (c : Char) : Char :=
  if 'A' ≤ c ∧ c ≤ 'Z' then Char.ofNat (c.toNat + 32)
  else if 0x410 ≤ c.toNat ∧ c.toNat ≤ 0x42F then Char.ofNat (c.toNat + 32)
  else if c.toNat = 0x401 then Char.ofNat 0x451
  else c

/-- Python `str.lower` (on the alphabets used by the program). -/
def pyLower (s : String) : String :=
  String.mk (s.data.map pyLowerChar)

/-- Python `str.strip()`: drop leading and trailing whitespace. -/
def pyStrip (s : String) : String :=
  String.mk (((s.data.dropWhile Char.isWhitespace).reverse.dropWhile
    Char.isWhitespace).reverse)

/-- Helper for `pySplit`: accumulate the current word (reversed). -/
def pySplitAux : List Char → List Char → List String
  | [], [] => []
  | [], acc => [String.mk acc.reverse]
  | c :: cs, acc =>
    if c.isWhitespace then
      match acc with
      | [] => pySplitAux cs []
      | _ => String.mk acc.reverse :: pySplitAux cs []
    else pySplitAux cs (c :: acc)

/-- Python `str.split()` with no argument: split on whitespace runs,
discarding empty pieces. -/
def pySplit (s : String) : List String :=
  pySplitAux s.data []

/-- Whether `n` occurs as a contiguous prefix of `h` (char lists). -/
def listStartsWith : List Char → List Char → Bool
  | [], _ => true
  | _ :: _, [] => false
  | a :: as, b :: bs => a = b && listStartsWith as bs

/-- Whether `n` occurs contiguously inside `h` (char lists). -/
def listOccursIn (n : List Char) : List Char → Bool
  | [] => n.isEmpty
  | h@(_ :: t) => listStartsWith n h || listOccursIn n t

/-- Python `needle in hay` on strings: substring containment. -/
def pyContains (needle hay : String) : Bool :=
  listOccursIn needle.data hay.data

/-- Python `str.isdigit()` (ASCII digits): non-empty and all digits. -/
def pyIsDigit (s : String) : Bool :=
  !s.data.isEmpty && s.data.all Char.isDigit

/-- `str(grade).replace(',', '.')` — the decimal-separator
normalization done by `convert_grade` (line 27). -/
def commaToDot (s : String) : String :=
  String.mk (s.data.map fun c => if c = ',' then '.' else c)

/-- Numeric value of a digit list (most significant first). -/
def digitsToNat (cs : List Char) : Nat :=
  cs.foldl (fun a c => a * 10 + (c.toNat - 48)) 0

/-- Python `float(...)` on a trimmed character list, kept exact: the
result `(m, k)` denotes the rational `m / 10^k`.  Grammar: optional
sign, decimal digits with an optional fractional part (at least one
digit), optional decimal exponent.  Returns `none` exactly where
`float` raises `ValueError`.  (`inf`/`nan` are not representable and
not modelled; no input relevant to the program produces them.) -/
def parseFloatDecChars (cs0 : List Char) : Option (Int × Nat) :=
  let neg : Bool := match cs0 with | '-' :: _ => true | _ => false
  let cs1 : List Char :=
    match cs0 with
    | '+' :: r => r
    | '-' :: r => r
    | _ => cs0
  let ip := cs1.takeWhile Char.isDigit
  let r1 := cs1.dropWhile Char.isDigit
  let fp : List Char :=
    match r1 with
    | '.' :: r => r.takeWhile Char.isDigit
    | _ => []
  let r2 : List Char :=
    match r1 with
    | '.' :: r => r.dropWhile Char.isDigit
    | _ => r1
  if ip.isEmpty && fp.isEmpty then none
  else
    let mag : Nat := digitsToNat (ip ++ fp)
    let m0 : Int := if neg then -(mag : Int) else (mag : Int)
    let k0 : Nat := fp.length
    match r2 with
    | [] => some (m0, k0)
    | e :: r3 =>
      if e = 'e' ∨ e = 'E' then
        let eneg : Bool := match r3 with | '-' :: _ => true | _ => false
        let r4 : List Char :=
          match r3 with
          | '+' :: r => r
          | '-' :: r => r
          | _ => r3
        let ed := r4.takeWhile Char.isDigit
        let r5 := r4.dropWhile Char.isDigit
        if ed.isEmpty || !r5.isEmpty then none
        else if eneg then some (m0, k0 + digitsToNat ed)
        else some (m0 * 10 ^ digitsToNat ed, k0)
      else none

/-- Python `float(s)` (exact): strips surrounding whitespace, then
parses to the scaled-decimal representation. -/
def parseFloatDec (s : String) : Option (Int × Nat) :=
  parseFloatDecChars (((s.data.dropWhile Char.isWhitespace).reverse.dropWhile
    Char.isWhitespace).reverse)

/-- The rational value denoted by a scaled decimal `(m, k)`. -/
def decValue (p : Int × Nat) : ℚ :=
  (p.1 : ℚ) / (10 : ℚ) ^ p.2

/-- Python `float(s)` as a rational value. -/
def parseFloat (s : String) : Option ℚ :=
  (parseFloatDec s).map decValue

/-- Result of grade conversion: a number `1..5` or the `'н'`
("not available") sentinel. -/
inductive Grade where
  | num : Nat → Grade
  | notAvailable : Grade
deriving DecidableEq, Repr

/-- `StudentProcessorBot.convert_grade` (lines 21-39): absent/`'-'`/`''`
cells and unparsable text give the `'н'` sentinel; otherwise the
comma-normalized value is bucketed at thresholds 9/7/5/3.  The float
comparison `grade_num >= c` is expressed exactly on the scaled decimal:
`c ≤ m / 10^k ↔ c * 10^k ≤ m`. -/
def convert_grade (grade : Cell) : Grade :=
  match grade with
  | Cell.absent => Grade.notAvailable
  | Cell.str s =>
    if s = "-" ∨ s = "" then Grade.notAvailable
    else
      match parseFloatDec (commaToDot s) with
      | none => Grade.notAvailable
      | some (m, k) =>
        if 9 * 10 ^ k ≤ m then Grade.num 5
        else if 7 * 10 ^ k ≤ m then Grade.num 4
        else if 5 * 10 ^ k ≤ m then Grade.num 3
        else if 3 * 10 ^ k ≤ m then Grade.num 2
        else Grade.num 1

/-- Test category, as returned by `categorize_test`. -/
inductive Category where
  | lecture : Category
  | lab : Category
  | final : Category
deriving DecidableEq, Repr

/-- `StudentProcessorBot.categorize_test` (lines 88-97): final/total
keywords first, then the lecture keyword, default `lab`; the display
name returned is the header itself. -/
def categorize_test (test_name : String) : Category × String :=
  if pyContains "итоговый" (pyLower test_name) ||
      pyContains "итог" (pyLower test_name) then
    (Category.final, test_name)
  else if pyContains "лекц" (pyLower test_name) then
    (Category.lecture, test_name)
  else (Category.lab, test_name)

/-- The `for test_col in test_columns` loop of `get_available_tests`
(lines 73-80): partition the qualifying columns, preserving order. -/
def partitionTests :
    List String →
      List (String × String) × List (String × String) × List (String × String)
  | [] => ([], [], [])
  | c :: cs =>
    let rest := partitionTests cs
    match categorize_test c with
    | (Category.lecture, n) => ((c, n) :: rest.1, rest.2.1, rest.2.2)
    | (Category.final, n) => (rest.1, rest.2.1, (c, n) :: rest.2.2)
    | (Category.lab, n) => (rest.1, (c, n) :: rest.2.1, rest.2.2)

/-- `list.sort(key=lambda x: x[1])` (lines 82-84): sort the pairs by
display name. -/
def sortTests (l : List (String × String)) : List (String × String) :=
  l.insertionSort (fun a b => a.2 ≤ b.2)

/-- `StudentProcessorBot.get_available_tests` (lines 65-86): keep the
columns whose lowercased header contains `'тест'`, partition them by
`categorize_test`, and sort each category by display name. -/
def get_available_tests (cols : List String) :
    List (String × String) × List (String × String) × List (String × String) :=
  (sortTests (partitionTests
      (cols.filter (fun c => pyContains "тест" (pyLower c)))).1,
    sortTests (partitionTests
      (cols.filter (fun c => pyContains "тест" (pyLower c)))).2.1,
    sortTests (partitionTests
      (cols.filter (fun c => pyContains "тест" (pyLower c)))).2.2)

/-- Number of columns of a pandas `DataFrame` read with `header=None`:
the maximum row width (shorter rows are `NaN`-padded, so `len(row)` is
this width for every row). -/
def ncols (rows : List (List Cell)) : Nat :=
  rows.foldr (fun r a => max r.length a) 0

/-- Python `dict` assignment `d[k] = v`: overwrite in place if the key
exists (keeping its position), else append. -/
def dictInsert (d : List (String × String)) (k v : String) :
    List (String × String) :=
  if d.any (fun p => p.1 = k) then
    d.map (fun p => if p.1 = k then (k, v) else p)
  else d ++ [(k, v)]

/-- One iteration of the row loop of `read_students_list`
(lines 47-53): `w` is the DataFrame column count; the name comes from
cell 1 and the group from cell 2, both required non-`NaN`; the name is
stripped and must be non-empty and not purely numeric. -/
def rosterStep (w : Nat) (d : List (String × String)) (row : List Cell) :
    List (String × String) :=
  if 3 ≤ w then
    match row.getD 1 Cell.absent, row.getD 2 Cell.absent with
    | Cell.str n, Cell.str gr =>
      if pyStrip n ≠ "" ∧ ¬ pyIsDigit (pyStrip n) then
        dictInsert d (pyStrip n) (pyStrip gr)
      else d
    | _, _ => d
  else d

/-- The row loop of `read_students_list` applied to a decoded grid
(no row skipping): used on `g.drop 2` by `read_students_list` itself. -/
def rosterScan (rows : List (List Cell)) : List (String × String) :=
  rows.foldl (rosterStep (ncols rows)) []

/-- `StudentProcessorBot.read_students_list` (lines 41-58): decode with
`skiprows=2` (drop the first two grid rows) and run the row loop.
The tabular decode itself is external; its output grid is the input. -/
def read_students_list (g : List (List Cell)) : List (String × String) :=
  rosterScan (g.drop 2)

/-- A decoded results table: column headers plus rows of cells aligned
with the headers by position. -/
structure Table where
  cols : List String
  rows : List (List Cell)
deriving DecidableEq, Repr

/-- `result_row[col]`: label-based cell lookup in a row. -/
def rowGet (cols : List String) (row : List Cell) (col : String) : Cell :=
  match cols.findIdx? (fun c => c = col) with
  | some i => row.getD i Cell.absent
  | none => Cell.absent

/-- The name-column test of `find_student_in_results` (line 108):
the lowercased header contains one of the four name keywords. -/
def isNameCol (col : String) : Bool :=
  let col_lower := pyLower col
  pyContains "фио" col_lower || pyContains "фамилия" col_lower ||
    pyContains "имя" col_lower || pyContains "студент" col_lower

/-- `' '.join(str(name).lower().split())`: the query-name
normalization of `find_student_in_results` (line 102). -/
def normName (s : String) : String :=
  String.intercalate " " (pySplit (pyLower s))

/-- The cell comparison of `find_student_in_results` (lines 109-115):
non-`NaN` cell, stripped and lowercased (whitespace not collapsed);
match if the normalized query contains or is contained in the cell
text, or some whitespace-separated query token occurs in it. -/
def cellMatches (qnorm : String) (cell : Cell) : Bool :=
  match cell with
  | Cell.absent => false
  | Cell.str v =>
    let result_name := pyLower (pyStrip v)
    pyContains qnorm result_name || pyContains result_name qnorm ||
      (pySplit qnorm).any (fun part => pyContains part result_name)

/-- The inner column loop of `find_student_in_results` (lines 106-115):
some name-keyword column of the row holds a matching cell. -/
def rowMatches (qnorm : String) (cols : List String) (row : List Cell) : Bool :=
  cols.any (fun c => isNameCol c && cellMatches qnorm (rowGet cols row c))

/-- The outer row loop of `find_student_in_results` (lines 104-117),
with the running row index. -/
def findStudentAux (qnorm : String) (cols : List String) :
    Nat → List (List Cell) → Option (Nat × List Cell)
  | _, [] => none
  | i, r :: rs =>
    if rowMatches qnorm cols r then some (i, r)
    else findStudentAux qnorm cols (i + 1) rs

/-- `StudentProcessorBot.find_student_in_results` (lines 99-117):
first row, in table order, with a matching name-column cell;
`none` models the `(None, None)` result. -/
def find_student_in_results (student_name : String) (t : Table) :
    Option (Nat × List Cell) :=
  findStudentAux (normName student_name) t.cols 0 t.rows

example :
    find_student_in_results "Ivanov Ivan"
      ⟨["фио"], [[Cell.str "ivan petrov"]]⟩ =
      some (0, [Cell.str "ivan petrov"]) := by decide
example :
    find_student_in_results "Ivanov Ivan"
      ⟨["балл"], [[Cell.str "ivanov ivan"]]⟩ = none := by decide
example :
    get_available_tests ["Лекция Тест 1", "итоговый тест", "тест 2", "итог"] =
      ([("Лекция Тест 1", "Лекция Тест 1")],
        [("тест 2", "тест 2")],
        [("итоговый тест", "итоговый тест")]) := by decide

/-- One output row of a report: `{'ФИО': name, 'Группа': group}` plus
one converted grade per test column (display name, grade). -/
structure OutRow where
  name : String
  group : String
  grades : List (String × Grade)
deriving DecidableEq, Repr

/-- One generated workbook: file name, the fixed column order, and one
sheet (31-character truncated group name, rows) per non-empty group. -/
structure Doc where
  filename : String
  header : List String
  sheets : List (String × List OutRow)
deriving DecidableEq, Repr

/-- All rows of a document, across its sheets. -/
def docRows (d : Doc) : List OutRow :=
  (d.sheets.map (fun s => s.2)).flatten

/-- The row built for a matched student (lines 161-181):
`result_row[test_col] if test_col in result_row else None`, then
`convert_grade`, keyed by display name. -/
def buildRow (t : Table) (resultRow : List Cell) (name group : String)
    (tests : List (String × String)) : OutRow :=
  { name := name, group := group,
    grades := tests.map (fun p =>
      let grade :=
        if t.cols.contains p.1 then rowGet t.cols resultRow p.1 else Cell.absent
      (p.2, convert_grade grade)) }

/-- The row built for an unmatched student (lines 187-203): the `'н'`
sentinel in every test column. -/
def naRow (name group : String) (tests : List (String × String)) : OutRow :=
  { name := name, group := group,
    grades := tests.map (fun p => (p.2, Grade.notAvailable)) }

/-- The per-student row of one category (lines 154-203): look the
student up once and build either a converted or an all-`'н'` row. -/
def studentRow (t : Table) (tests : List (String × String))
    (p : String × String) : OutRow :=
  match find_student_in_results p.1 t with
  | some ir => buildRow t ir.2 p.1 p.2 tests
  | none => naRow p.1 p.2 tests

/-- Keys of a Python `dict` built by inserting a list of keys in order:
first occurrence wins.  Models the group keys of the
`*_data_by_group` dicts initialized over `selected_groups`
(lines 140-143). -/
def firstDedupAux : List String → List String → List String
  | [], _ => []
  | a :: l, seen =>
    if seen.contains a then firstDedupAux l seen
    else a :: firstDedupAux l (a :: seen)

/-- First-occurrence deduplication (Python `dict` key order). -/
def firstDedup (l : List String) : List String :=
  firstDedupAux l []

/-- The group filter over the roster (line 132). -/
def rosterFiltered (student_dict : List (String × String))
    (selected_groups : List String) : List (String × String) :=
  student_dict.filter (fun p => selected_groups.contains p.2)

/-- The per-group row lists of one category after the student loop
(lines 149-203): rows are appended to a student's group in roster
order, and only when the category flag is set and its test list is
non-empty. -/
def categoryData (t : Table) (flag : Bool) (tests : List (String × String))
    (student_dict : List (String × String)) (selected_groups : List String) :
    List (String × List OutRow) :=
  if flag ∧ tests ≠ [] then
    (firstDedup selected_groups).map (fun g =>
      (g, ((rosterFiltered student_dict selected_groups).filter
            (fun p => p.2 = g)).map (studentRow t tests)))
  else (firstDedup selected_groups).map (fun g => (g, []))

/-- The file-assembly block of one category (lines 209-257): keep the
groups with rows (`if data:`), and emit one workbook when any remain
(`if lecture_dfs:`), with sheet names truncated to 31 characters. -/
def categoryFile (filename : String) (tests : List (String × String))
    (data : List (String × List OutRow)) : List Doc :=
  if data.filter (fun p => p.2 ≠ []) = [] then []
  else
    [{ filename := filename,
       header := "ФИО" :: "Группа" :: tests.map (fun p => p.2),
       sheets := (data.filter (fun p => p.2 ≠ [])).map
         (fun p => (String.mk (p.1.data.take 31), p.2)) }]

/-- `StudentProcessorBot.process_data` (lines 119-259), with the
session lookup replaced by explicit inputs: returns the generated
documents (lectures, labs, finals order), the matched-student count
and the unmatched-student count. -/
def process_data (t : Table) (student_dict : List (String × String))
    (selected_groups : List String)
    (export_lectures export_labs export_finals : Bool) :
    List Doc × Nat × Nat :=
  let tests := get_available_tests t.cols
  let filtered := rosterFiltered student_dict selected_groups
  let files :=
    categoryFile "Лекции_результаты.xlsx" tests.1
        (categoryData t export_lectures tests.1 student_dict selected_groups) ++
      categoryFile "Лабораторные_результаты.xlsx" tests.2.1
        (categoryData t export_labs tests.2.1 student_dict selected_groups) ++
      categoryFile "Итоговые_результаты.xlsx" tests.2.2
        (categoryData t export_finals tests.2.2 student_dict selected_groups)
  (files,
    (filtered.filter (fun p => (find_student_in_results p.1 t).isSome)).length,
    (filtered.filter (fun p => !(find_student_in_results p.1 t).isSome)).length)

/-- The lecture test list of a table (first component of
`get_available_tests`). -/
def lectureTests (t : Table) : List (String × String) :=
  (get_available_tests t.cols).1

/-- The lab test list of a table. -/
def labTests (t : Table) : List (String × String) :=
  (get_available_tests t.cols).2.1

/-- The final test list of a table. -/
def finalTests (t : Table) : List (String × String) :=
  (get_available_tests t.cols).2.2

/-- All rows of one category across groups. -/
def categoryRows (t : Table) (flag : Bool) (tests : List (String × String))
    (student_dict : List (String × String)) (selected_groups : List String) :
    List OutRow :=
  ((categoryData t flag tests student_dict selected_groups).map
    (fun p => p.2)).flatten

/-- Modelled from the spec: the claimed header-qualification keyword
set of the TestColumnClassifier — "test"/"lecture"/"lab"/"final"-
equivalent substrings in the source locale.  (The code itself
qualifies only on `'тест'`.) -/
def specTestKeywords : List String := ["тест", "лекц", "лаб", "итог"]

/-- Modelled from the spec: a header qualifies as a test column when
its lowercased text contains any keyword of `specTestKeywords`. -/
def specQualifies (h : String) : Bool :=
  specTestKeywords.any (fun k => pyContains k (pyLower h))

/-- Modelled from the spec: the claimed candidate-name-cell test of the
RosterParser heuristic — at least one alphabetic character, an interior
space, not purely numeric, more than four characters.  (The code uses
fixed columns instead.) -/
def specNameQualifies (s : String) : Bool :=
  s.data.any Char.isAlpha && pyContains " " (pyStrip s) &&
    !pyIsDigit s && decide (4 < s.length)

/-- Modelled from the spec: the claimed IdentityMatcher cell rule —
both sides lowercased and whitespace-collapsed; match when the
normalized query contains or is contained in the normalized cell text,
or every token among the query's first two components occurs inside
some token of the cell.  (The code collapses only the query and uses
an any-token rule against the whole cell text.) -/
def specCellMatches (query : String) (cell : Cell) : Bool :=
  match cell with
  | Cell.absent => false
  | Cell.str v =>
    let qn := normName query
    let cn := normName v
    pyContains qn cn || pyContains cn qn ||
      ((pySplit qn).take 2).all (fun tok =>
        (pySplit cn).any (fun ct => pyContains tok ct))

/-- Bridge between the integer comparison used by `convert_grade` and
the rational value of the parsed decimal. -/
theorem threshold_iff (c m : Int) (k : Nat) :
    c * 10 ^ k ≤ m ↔ (c : ℚ) ≤ decValue (m, k) := by
  unfold decValue
  rw [le_div_iff₀ (by positivity : (0 : ℚ) < (10 : ℚ) ^ k)]
  constructor
  · intro h
    exact_mod_cast h
  · intro h
    exact_mod_cast h

/-- C1: for every input that parses as a number after comma-to-dot
normalization, `convert_grade` buckets it by the claimed inclusive
lower bounds, with no range clamp (values `< 3`, negatives included,
give 1; values `≥ 9`, above 10 included, give 5); and
`convert("7,5") = convert("7.5") = 4`. -/
theorem grade_conversion_thresholds (s : String) (mk : Int × Nat)
    (h : parseFloatDec (commaToDot s) = some mk) :
    ((9 : ℚ) ≤ decValue mk → convert_grade (Cell.str s) = Grade.num 5) ∧
    ((7 : ℚ) ≤ decValue mk → decValue mk < 9 →
      convert_grade (Cell.str s) = Grade.num 4) ∧
    ((5 : ℚ) ≤ decValue mk → decValue mk < 7 →
      convert_grade (Cell.str s) = Grade.num 3) ∧
    ((3 : ℚ) ≤ decValue mk → decValue mk < 5 →
      convert_grade (Cell.str s) = Grade.num 2) ∧
    (decValue mk < 3 → convert_grade (Cell.str s) = Grade.num 1) ∧
    convert_grade (Cell.str "7,5") = Grade.num 4 ∧
    convert_grade (Cell.str "7.5") = Grade.num 4 := by
  obtain ⟨m, k⟩ := mk
  have hs : ¬ (s = "-" ∨ s = "") := by
    rintro (rfl | rfl)
    · rw [show parseFloatDec (commaToDot "-") = none from by decide] at h
      exact Option.noConfusion h
    · rw [show parseFloatDec (commaToDot "") = none from by decide] at h
      exact Option.noConfusion h
  have hcg : convert_grade (Cell.str s) =
      (if 9 * 10 ^ k ≤ m then Grade.num 5
       else if 7 * 10 ^ k ≤ m then Grade.num 4
       else if 5 * 10 ^ k ≤ m then Grade.num 3
       else if 3 * 10 ^ k ≤ m then Grade.num 2
       else Grade.num 1) := by
    simp only [convert_grade, if_neg hs, h]
  refine ⟨?_, ?_, ?_, ?_, ?_, by decide, by decide⟩
  · intro h9
    rw [hcg, if_pos ((threshold_iff 9 m k).mpr (by exact_mod_cast h9))]
  · intro h7 h9
    have n9 : ¬ (9 * 10 ^ k ≤ m) := by
      rw [threshold_iff]
      exact not_le.mpr (by exact_mod_cast h9)
    rw [hcg, if_neg n9, if_pos ((threshold_iff 7 m k).mpr (by exact_mod_cast h7))]
  · intro h5 h7
    have n7 : ¬ (7 * 10 ^ k ≤ m) := by
      rw [threshold_iff]
      exact not_le.mpr (by exact_mod_cast h7)
    have n9 : ¬ (9 * 10 ^ k ≤ m) := by
      rw [threshold_iff]
      refine not_le.mpr (lt_trans (by exact_mod_cast h7) (by norm_num))
    rw [hcg, if_neg n9, if_neg n7,
      if_pos ((threshold_iff 5 m k).mpr (by exact_mod_cast h5))]
  · intro h3 h5
    have n5 : ¬ (5 * 10 ^ k ≤ m) := by
      rw [threshold_iff]
      exact not_le.mpr (by exact_mod_cast h5)
    have n7 : ¬ (7 * 10 ^ k ≤ m) := by
      rw [threshold_iff]
      refine not_le.mpr (lt_trans (by exact_mod_cast h5) (by norm_num))
    have n9 : ¬ (9 * 10 ^ k ≤ m) := by
      rw [threshold_iff]
      refine not_le.mpr (lt_trans (by exact_mod_cast h5) (by norm_num))
    rw [hcg, if_neg n9, if_neg n7, if_neg n5,
      if_pos ((threshold_iff 3 m k).mpr (by exact_mod_cast h3))]
  · intro h3
    have n3 : ¬ (3 * 10 ^ k ≤ m) := by
      rw [threshold_iff]
      exact not_le.mpr (by exact_mod_cast h3)
    have n5 : ¬ (5 * 10 ^ k ≤ m) := by
      rw [threshold_iff]
      refine not_le.mpr (lt_trans (by exact_mod_cast h3) (by norm_num))
    have n7 : ¬ (7 * 10 ^ k ≤ m) := by
      rw [threshold_iff]
      refine not_le.mpr (lt_trans (by exact_mod_cast h3) (by norm_num))
    have n9 : ¬ (9 * 10 ^ k ≤ m) := by
      rw [threshold_iff]
      refine not_le.mpr (lt_trans (by exact_mod_cast h3) (by norm_num))
    rw [hcg, if_neg n9, if_neg n7, if_neg n5, if_neg n3]

/-- Witness for C1 at the concrete input `"7.5"`. -/
theorem grade_conversion_thresholds_spot :
    convert_grade (Cell.str "7.5") = Grade.num 4 :=
  (grade_conversion_thresholds "7.5" (75, 1) (by decide)).2.2.2.2.2.2

/-- C2: `convert_grade` yields the `'н'` sentinel for absent/NaN cells,
the empty string, `"-"`, `"н"`/`"Н"`, and every input whose numeric
parse fails; being a total function, it raises nothing. -/
theorem grade_sentinels (s : String) (h : parseFloatDec (commaToDot s) = none) :
    convert_grade (Cell.str s) = Grade.notAvailable ∧
    convert_grade Cell.absent = Grade.notAvailable ∧
    convert_grade (Cell.str "") = Grade.notAvailable ∧
    convert_grade (Cell.str "-") = Grade.notAvailable ∧
    convert_grade (Cell.str "н") = Grade.notAvailable ∧
    convert_grade (Cell.str "Н") = Grade.notAvailable := by
  refine ⟨?_, by decide, by decide, by decide, by decide, by decide⟩
  by_cases hs : s = "-" ∨ s = ""
  · rcases hs with rfl | rfl <;> decide
  · simp only [convert_grade, if_neg hs, h]

/-- Witness for C2 at the concrete unparsable input `"абв"`. -/
theorem grade_sentinels_spot :
    convert_grade (Cell.str "абв") = Grade.notAvailable :=
  (grade_sentinels "абв" (by decide)).1

/-- Counterexample for C3: the header `"итог"` contains a
final-equivalent keyword of the claimed qualification set, yet the
classifier places it in no category. -/
theorem classifier_qualification_cex :
    specQualifies "итог" = true ∧
    get_available_tests ["итог"] = ([], [], []) := by decide

/-- Counterexample for C5: on a roster grid whose third row is
`["x", "ab", "G1"]`, the parser takes `"ab"` as the student name even
though `"ab"` fails every part of the claimed name heuristic. -/
theorem roster_heuristic_cex :
    read_students_list [[], [], [Cell.str "x", Cell.str "ab", Cell.str "G1"]] =
      [("ab", "G1")] ∧
    specNameQualifies "ab" = false := by decide

/-- Counterexample for C6: on a grid whose only usable row is among the
two skipped leading rows, the parser returns the empty mapping even
though scanning from the first row would find an entry. -/
theorem roster_fallback_cex :
    read_students_list [[Cell.str "x", Cell.str "Ivanov Ivan", Cell.str "G1"]] =
      [] ∧
    rosterScan [[Cell.str "x", Cell.str "Ivanov Ivan", Cell.str "G1"]] =
      [("Ivanov Ivan", "G1")] := by decide

/-- Counterexample for C7: the query `"Ivanov Ivan"` matches the cell
`"ivan petrov"` in the code (its token `"ivan"` occurs in the cell
text), although no clause of the claimed rule holds for that pair. -/
theorem matcher_clause_cex :
    find_student_in_results "Ivanov Ivan"
        ⟨["фио"], [[Cell.str "ivan petrov"]]⟩ =
      some (0, [Cell.str "ivan petrov"]) ∧
    specCellMatches "Ivanov Ivan" (Cell.str "ivan petrov") = false := by decide

/-- The row loop returns `none` exactly when no row matches. -/
theorem findStudentAux_none_iff (qn : String) (cols : List String) :
    ∀ (rs : List (List Cell)) (i : Nat),
      findStudentAux qn cols i rs = none ↔
        ∀ row ∈ rs, rowMatches qn cols row = false := by
  intro rs
  induction rs with
  | nil => intro i; simp [findStudentAux]
  | cons r rs ih =>
    intro i
    by_cases hr : rowMatches qn cols r = true
    · simp only [findStudentAux, hr, if_true]
      constructor
      · intro hcontra
        exact Option.noConfusion hcontra
      · intro hall
        exact absurd (hall r (List.mem_cons_self r rs)) (by simp [hr])
    · have hr' : rowMatches qn cols r = false := by
        simpa using hr
      simp only [findStudentAux, hr', Bool.false_eq_true, if_false]
      rw [ih]
      constructor
      · intro hall row hrow
        rcases List.mem_cons.mp hrow with rfl | hmem
        · exact hr'
        · exact hall row hmem
      · intro hall row hrow
        exact hall row (List.mem_cons_of_mem _ hrow)

/-- The row loop returns the first matching row, in table order. -/
theorem findStudentAux_some (qn : String) (cols : List String) :
    ∀ (rs : List (List Cell)) (i j : Nat) (row : List Cell),
      findStudentAux qn cols i rs = some (j, row) →
      i ≤ j ∧ ∃ hj : j - i < rs.length,
        rs.get ⟨j - i, hj⟩ = row ∧ rowMatches qn cols row = true ∧
        ∀ m (hm : m < j - i),
          rowMatches qn cols (rs.get ⟨m, by omega⟩) = false := by
  intro rs
  induction rs with
  | nil =>
    intro i j row h
    exact absurd h (by simp [findStudentAux])
  | cons r rs ih =>
    intro i j row h
    by_cases hr : rowMatches qn cols r = true
    · rw [findStudentAux, if_pos hr] at h
      obtain ⟨hj, hrow⟩ : i = j ∧ r = row := by
        have := Option.some.inj h
        exact ⟨congrArg Prod.fst this, congrArg Prod.snd this⟩
      subst hj
      subst hrow
      refine ⟨le_refl i, by simp, by simp, hr, ?_⟩
      intro m hm
      omega
    · rw [findStudentAux, if_neg hr] at h
      obtain ⟨hij, hj', hget, hmatch, hprev⟩ := ih (i + 1) j row h
      have hij' : i ≤ j := by omega
      have hlen : j - i < (r :: rs).length := by
        simp only [List.length_cons]
        omega
      refine ⟨hij', hlen, ?_, hmatch, ?_⟩
      · have he : j - i = (j - (i + 1)) + 1 := by omega
        rw [List.get_of_eq rfl]
        simp only [he, List.get_cons_succ]
        exact hget
      · intro m hm
        match m with
        | 0 =>
          simpa using hr
        | Nat.succ m' =>
          have hm' : m' < j - (i + 1) := by omega
          simpa using hprev m' hm'

/-- C7 (amended): `find_student_in_results` returns the first row in
table order with a name-keyword-column cell matching the query —
matching meaning the normalized query contains or is contained in the
stripped, lowercased (not whitespace-collapsed) cell text, or some
whitespace-separated query token occurs inside the cell text — and
returns `none` (never raising) exactly when no row matches. -/
theorem matcher_first_row (q : String) (t : Table) :
    (∀ i row, find_student_in_results q t = some (i, row) →
      ∃ hi : i < t.rows.length,
        t.rows.get ⟨i, hi⟩ = row ∧
        rowMatches (normName q) t.cols row = true ∧
        ∀ j (hj : j < i),
          rowMatches (normName q) t.cols (t.rows.get ⟨j, by omega⟩) = false) ∧
    (find_student_in_results q t = none ↔
      ∀ row ∈ t.rows, rowMatches (normName q) t.cols row = false) := by
  constructor
  · intro i row h
    obtain ⟨-, hj, hget, hmatch, hprev⟩ :=
      findStudentAux_some (normName q) t.cols t.rows 0 i row h
    simp only [Nat.sub_zero] at hj hget hprev
    exact ⟨hj, hget, hmatch, fun j hjlt => hprev j hjlt⟩
  · exact findStudentAux_none_iff (normName q) t.cols t.rows 0

/-- Witness for C7 at a one-row table where no cell matches. -/
theorem matcher_first_row_spot :
    find_student_in_results "x" ⟨["фио"], [[Cell.str "y"]]⟩ = none :=
  (matcher_first_row "x" ⟨["фио"], [[Cell.str "y"]]⟩).2.mpr (by decide)

/-- C10: a table none of whose column headers contains a name keyword
(`'фио'`, `'фамилия'`, `'имя'`, `'студент'`) yields `none` for every
query — only name-keyword columns are ever inspected. -/
theorem name_columns_only (q : String) (t : Table)
    (h : ∀ c ∈ t.cols, isNameCol c = false) :
    find_student_in_results q t = none := by
  unfold find_student_in_results
  rw [findStudentAux_none_iff]
  intro row _
  unfold rowMatches
  rw [List.any_eq_false]
  intro c hc
  simp [h c hc]

/-- Witness for C10: a table with only a score column. -/
theorem name_columns_only_spot :
    find_student_in_results "ivanov" ⟨["балл"], [[Cell.str "ivanov"]]⟩ = none :=
  name_columns_only "ivanov" ⟨["балл"], [[Cell.str "ivanov"]]⟩ (by decide)

/-- `categorize_test` returns its input as the display name. -/
theorem categorize_test_snd (c : String) : (categorize_test c).2 = c := by
  unfold categorize_test
  split
  · rfl
  · split
    · rfl
    · rfl

/-- The partition loop splits the qualifying columns into the
per-category filters, each paired with itself as display name. -/
theorem partitionTests_eq (l : List String) :
    partitionTests l =
      ((l.filter (fun c => (categorize_test c).1 = Category.lecture)).map
          (fun c => (c, c)),
        (l.filter (fun c => (categorize_test c).1 = Category.lab)).map
          (fun c => (c, c)),
        (l.filter (fun c => (categorize_test c).1 = Category.final)).map
          (fun c => (c, c))) := by
  induction l with
  | nil => rfl
  | cons c cs ih =>
    rcases hc : categorize_test c with ⟨ccat, n⟩
    have hn : n = c := by
      have h2 := categorize_test_snd c
      rw [hc] at h2
      exact h2
    subst hn
    cases ccat <;>
      simp [partitionTests, hc, ih, List.filter_cons]

instance : IsTotal (String × String) (fun a b => a.2 ≤ b.2) :=
  ⟨fun a b => le_total a.2 b.2⟩

instance : IsTrans (String × String) (fun a b => a.2 ≤ b.2) :=
  ⟨fun _ _ _ hab hbc => le_trans hab hbc⟩

/-- Sorting permutes, so membership is unchanged. -/
theorem mem_sortTests (l : List (String × String)) (x : String × String) :
    x ∈ sortTests l ↔ x ∈ l :=
  (List.perm_insertionSort _ l).mem_iff

/-- A list of self-paired strings is recovered from its second
components. -/
theorem eq_map_dup_of_fst_eq_snd :
    ∀ (s : List (String × String)), (∀ x ∈ s, x.1 = x.2) →
      s = (s.map Prod.snd).map (fun c => (c, c)) := by
  intro s
  induction s with
  | nil => intro; rfl
  | cons a s ih =>
    intro h
    have ha : a.1 = a.2 := h a (List.mem_cons_self a s)
    have ha' : a = (a.2, a.2) := by
      cases a
      simp only at ha
      rw [ha]
    simp only [List.map_cons]
    rw [← ha', ← ih fun x hx => h x (List.mem_cons_of_mem _ hx)]

/-- Sorting self-paired strings by display name is invariant under
permutation of the underlying strings. -/
theorem sortTests_map_dup (l₁ l₂ : List String) (h : l₁.Perm l₂) :
    sortTests (l₁.map (fun c => (c, c))) =
      sortTests (l₂.map (fun c => (c, c))) := by
  have hperm :
      (sortTests (l₁.map (fun c => (c, c)))).Perm
        (sortTests (l₂.map (fun c => (c, c)))) :=
    (List.perm_insertionSort _ _).trans
      ((h.map _).trans (List.perm_insertionSort _ _).symm)
  have hsort : ∀ l : List (String × String),
      List.Sorted (fun a b : String × String => a.2 ≤ b.2) (sortTests l) :=
    fun l => List.sorted_insertionSort _ l
  have hsnd :
      (sortTests (l₁.map (fun c => (c, c)))).map Prod.snd =
        (sortTests (l₂.map (fun c => (c, c)))).map Prod.snd := by
    refine @List.eq_of_perm_of_sorted String (fun a b => a ≤ b)
      inferInstance _ _ (hperm.map Prod.snd) ?_ ?_
    · exact List.pairwise_map.mpr (hsort _)
    · exact List.pairwise_map.mpr (hsort _)
  have hdup : ∀ (l : List String) (x : String × String),
      x ∈ sortTests (l.map (fun c => (c, c))) → x.1 = x.2 := by
    intro l x hx
    rw [mem_sortTests] at hx
    obtain ⟨c, -, rfl⟩ := List.mem_map.mp hx
    rfl
  calc sortTests (l₁.map (fun c => (c, c)))
      = ((sortTests (l₁.map (fun c => (c, c)))).map Prod.snd).map
          (fun c => (c, c)) :=
        eq_map_dup_of_fst_eq_snd _ (hdup l₁)
    _ = ((sortTests (l₂.map (fun c => (c, c)))).map Prod.snd).map
          (fun c => (c, c)) := by rw [hsnd]
    _ = sortTests (l₂.map (fun c => (c, c))) :=
        (eq_map_dup_of_fst_eq_snd _ (hdup l₂)).symm

/-- C4: the classifier is invariant under permutation of the header
list — all three output lists (each sorted by display name) are
identical, so category membership and within-category order depend
only on the header multiset. -/
theorem classifier_perm_invariant (l₁ l₂ : List String) (h : l₁.Perm l₂) :
    get_available_tests l₁ = get_available_tests l₂ := by
  unfold get_available_tests
  rw [partitionTests_eq, partitionTests_eq]
  have hf : (l₁.filter (fun c => pyContains "тест" (pyLower c))).Perm
      (l₂.filter (fun c => pyContains "тест" (pyLower c))) := h.filter _
  refine Prod.ext ?_ (Prod.ext ?_ ?_)
  · exact sortTests_map_dup _ _ (hf.filter _)
  · exact sortTests_map_dup _ _ (hf.filter _)
  · exact sortTests_map_dup _ _ (hf.filter _)

/-- Witness for C4 at a two-header list and its reversal. -/
theorem classifier_perm_invariant_spot :
    get_available_tests ["тест 1", "итоговый тест"] =
      get_available_tests ["итоговый тест", "тест 1"] :=
  classifier_perm_invariant ["тест 1", "итоговый тест"]
    ["итоговый тест", "тест 1"] (by decide)

/-- C3 (amended): a header is placed into some category exactly when
its lowercased text contains `'тест'` (the classifier's only
qualification keyword; headers containing only lecture/final keywords
are silently excluded); among qualifying headers, one containing
`'итоговый'`/`'итог'` goes to FINAL, else one containing `'лекц'` goes
to LECTURE, else to LAB. -/
theorem classifier_keyword_placement (cols : List String) (h : String)
    (hmem : h ∈ cols) :
    (pyContains "тест" (pyLower h) = false →
      (h, h) ∉ (get_available_tests cols).1 ∧
      (h, h) ∉ (get_available_tests cols).2.1 ∧
      (h, h) ∉ (get_available_tests cols).2.2) ∧
    (pyContains "тест" (pyLower h) = true →
      ((pyContains "итоговый" (pyLower h) ||
          pyContains "итог" (pyLower h)) = true →
        (h, h) ∈ (get_available_tests cols).2.2) ∧
      ((pyContains "итоговый" (pyLower h) ||
          pyContains "итог" (pyLower h)) = false →
        pyContains "лекц" (pyLower h) = true →
        (h, h) ∈ (get_available_tests cols).1) ∧
      ((pyContains "итоговый" (pyLower h) ||
          pyContains "итог" (pyLower h)) = false →
        pyContains "лекц" (pyLower h) = false →
        (h, h) ∈ (get_available_tests cols).2.1)) := by
  unfold get_available_tests
  rw [partitionTests_eq]
  constructor
  · intro hq
    refine ⟨?_, ?_, ?_⟩ <;>
      · intro hin
        rw [mem_sortTests] at hin
        obtain ⟨c, hcmem, hcc⟩ := List.mem_map.mp hin
        obtain ⟨rfl, -⟩ : c = h ∧ c = h := by
          exact ⟨congrArg Prod.fst hcc, congrArg Prod.snd hcc⟩
        have := (List.mem_filter.mp (List.mem_filter.mp hcmem).1).2
        rw [hq] at this
        exact Bool.noConfusion this
  · intro hq
    refine ⟨?_, ?_, ?_⟩
    · intro hfin
      rw [mem_sortTests]
      refine List.mem_map.mpr ⟨h, ?_, rfl⟩
      refine List.mem_filter.mpr ⟨List.mem_filter.mpr ⟨hmem, hq⟩, ?_⟩
      simp [categorize_test, hfin]
    · intro hfin hlec
      rw [mem_sortTests]
      refine List.mem_map.mpr ⟨h, ?_, rfl⟩
      refine List.mem_filter.mpr ⟨List.mem_filter.mpr ⟨hmem, hq⟩, ?_⟩
      simp [categorize_test, hfin, hlec]
    · intro hfin hlec
      rw [mem_sortTests]
      refine List.mem_map.mpr ⟨h, ?_, rfl⟩
      refine List.mem_filter.mpr ⟨List.mem_filter.mpr ⟨hmem, hq⟩, ?_⟩
      simp [categorize_test, hfin, hlec]

/-- Witness for C3: a lecture-test header lands in the lecture list. -/
theorem classifier_keyword_placement_spot :
    ("лекция тест", "лекция тест") ∈
      (get_available_tests ["лекция тест"]).1 :=
  (((classifier_keyword_placement ["лекция тест"] "лекция тест"
      (by decide)).2 (by decide)).2.1) (by decide) (by decide)

/-- Membership after a Python-dict insertion: the inserted pair or an
original entry. -/
theorem mem_dictInsert (d : List (String × String)) (k v : String)
    (p : String × String) (hp : p ∈ dictInsert d k v) :
    p = (k, v) ∨ p ∈ d := by
  unfold dictInsert at hp
  by_cases hany : (d.any fun q => q.1 = k) = true
  · rw [if_pos hany] at hp
    obtain ⟨q, hq, hqe⟩ := List.mem_map.mp hp
    by_cases hqk : q.1 = k
    · left
      rw [← hqe, if_pos hqk]
    · right
      rw [← hqe, if_neg hqk]
      exact hq
  · rw [if_neg hany] at hp
    rcases List.mem_append.mp hp with h | h
    · exact Or.inr h
    · exact Or.inl (List.mem_singleton.mp h)

/-- Existing dictionary keys survive an insertion. -/
theorem key_mem_dictInsert_of_mem (d : List (String × String)) (k v a : String)
    (ha : a ∈ d.map Prod.fst) : a ∈ (dictInsert d k v).map Prod.fst := by
  unfold dictInsert
  by_cases hany : (d.any fun q => q.1 = k) = true
  · rw [if_pos hany]
    obtain ⟨q, hq, rfl⟩ := List.mem_map.mp ha
    refine List.mem_map.mpr
      ⟨if q.1 = k then (k, v) else q, List.mem_map.mpr ⟨q, hq, rfl⟩, ?_⟩
    by_cases hqk : q.1 = k <;> simp [hqk]
  · rw [if_neg hany, List.map_append]
    exact List.mem_append_left _ ha

/-- The inserted key is a key of the result. -/
theorem key_mem_dictInsert_self (d : List (String × String)) (k v : String) :
    k ∈ (dictInsert d k v).map Prod.fst := by
  unfold dictInsert
  by_cases hany : (d.any fun q => q.1 = k) = true
  · rw [if_pos hany]
    obtain ⟨q, hq, hqk⟩ := List.any_eq_true.mp hany
    have hqk' : q.1 = k := by simpa using hqk
    exact List.mem_map.mpr
      ⟨(k, v), List.mem_map.mpr ⟨q, hq, by rw [if_pos hqk']⟩, rfl⟩
  · rw [if_neg hany, List.map_append]
    exact List.mem_append_right _ (by simp)

/-- Every entry produced by the roster row loop either was in the
accumulator or comes from a row's cells 1 and 2 passing the checks. -/
theorem rosterScan_fold_sound :
    ∀ (rows : List (List Cell)) (w : Nat) (d : List (String × String))
      (p : String × String), p ∈ rows.foldl (rosterStep w) d →
      p ∈ d ∨ (3 ≤ w ∧ ∃ row ∈ rows, ∃ n gr : String,
        row.getD 1 Cell.absent = Cell.str n ∧
        row.getD 2 Cell.absent = Cell.str gr ∧
        p.1 = pyStrip n ∧ p.2 = pyStrip gr ∧
        pyStrip n ≠ "" ∧ pyIsDigit (pyStrip n) = false) := by
  intro rows
  induction rows with
  | nil =>
    intro w d p hp
    exact Or.inl hp
  | cons r rs ih =>
    intro w d p hp
    rw [List.foldl_cons] at hp
    rcases ih w (rosterStep w d r) p hp with hp' | ⟨hw, row, hrow, rest⟩
    · by_cases hw : 3 ≤ w
      case neg =>
        unfold rosterStep at hp'
        rw [if_neg hw] at hp'
        exact Or.inl hp'
      case pos =>
        rcases h1 : r.getD 1 Cell.absent with - | n <;>
          rcases h2 : r.getD 2 Cell.absent with - | gr <;>
          simp only [rosterStep, if_pos hw, h1, h2] at hp'
        · exact Or.inl hp'
        · exact Or.inl hp'
        · exact Or.inl hp'
        · by_cases hcond : pyStrip n ≠ "" ∧ ¬ pyIsDigit (pyStrip n)
          · rw [if_pos hcond] at hp'
            rcases mem_dictInsert _ _ _ _ hp' with rfl | hp''
            · exact Or.inr ⟨hw, r, List.mem_cons_self r rs, n, gr, h1, h2,
                rfl, rfl, hcond.1, by simpa using hcond.2⟩
            · exact Or.inl hp''
          · rw [if_neg hcond] at hp'
            exact Or.inl hp'
    · exact Or.inr ⟨hw, row, List.mem_cons_of_mem _ hrow, rest⟩

/-- Keys already in the accumulator survive the roster row loop. -/
theorem rosterScan_fold_keys :
    ∀ (rows : List (List Cell)) (w : Nat) (d : List (String × String))
      (a : String), a ∈ d.map Prod.fst →
      a ∈ (rows.foldl (rosterStep w) d).map Prod.fst := by
  intro rows
  induction rows with
  | nil =>
    intro w d a ha
    exact ha
  | cons r rs ih =>
    intro w d a ha
    rw [List.foldl_cons]
    refine ih w _ a ?_
    by_cases hw : 3 ≤ w
    · rcases h1 : r.getD 1 Cell.absent with - | n <;>
        rcases h2 : r.getD 2 Cell.absent with - | gr <;>
        simp only [rosterStep, if_pos hw, h1, h2]
      · exact ha
      · exact ha
      · exact ha
      · by_cases hcond : pyStrip n ≠ "" ∧ ¬ pyIsDigit (pyStrip n)
        · rw [if_pos hcond]
          exact key_mem_dictInsert_of_mem _ _ _ _ ha
        · rw [if_neg hcond]
          exact ha
    · unfold rosterStep
      rw [if_neg hw]
      exact ha

/-- A qualifying row contributes its stripped name as a key. -/
theorem rosterScan_fold_adds :
    ∀ (rows : List (List Cell)) (w : Nat) (d : List (String × String))
      (row : List Cell) (n gr : String),
      row ∈ rows → 3 ≤ w →
      row.getD 1 Cell.absent = Cell.str n →
      row.getD 2 Cell.absent = Cell.str gr →
      pyStrip n ≠ "" → pyIsDigit (pyStrip n) = false →
      pyStrip n ∈ (rows.foldl (rosterStep w) d).map Prod.fst := by
  intro rows
  induction rows with
  | nil =>
    intro w d row n gr hmem
    exact absurd hmem (List.not_mem_nil row)
  | cons r rs ih =>
    intro w d row n gr hmem hw h1 h2 hne hdig
    rw [List.foldl_cons]
    rcases List.mem_cons.mp hmem with rfl | hmem'
    · refine rosterScan_fold_keys rs w _ _ ?_
      simp only [rosterStep, if_pos hw, h1, h2]
      rw [if_pos ⟨hne, by simp [hdig]⟩]
      exact key_mem_dictInsert_self _ _ _
    · exact ih w _ row n gr hmem' hw h1 h2 hne hdig

/-- C5 (amended): the parser uses fixed columns, not a heuristic scan —
every produced entry is the stripped cell 1 (non-empty, not purely
numeric) and stripped cell 2 of some row past the two skipped ones, in
a grid of at least three columns; and every row passing exactly those
checks contributes its name.  No interior-space, length or
digit-in-group condition is applied, and rows failing the checks are
skipped without error. -/
theorem roster_fixed_columns (g : List (List Cell)) :
    (∀ p ∈ read_students_list g,
      3 ≤ ncols (g.drop 2) ∧ ∃ row ∈ g.drop 2, ∃ n gr : String,
        row.getD 1 Cell.absent = Cell.str n ∧
        row.getD 2 Cell.absent = Cell.str gr ∧
        p.1 = pyStrip n ∧ p.2 = pyStrip gr ∧
        pyStrip n ≠ "" ∧ pyIsDigit (pyStrip n) = false) ∧
    (∀ row ∈ g.drop 2, ∀ n gr : String, 3 ≤ ncols (g.drop 2) →
      row.getD 1 Cell.absent = Cell.str n →
      row.getD 2 Cell.absent = Cell.str gr →
      pyStrip n ≠ "" → pyIsDigit (pyStrip n) = false →
      pyStrip n ∈ (read_students_list g).map Prod.fst) := by
  constructor
  · intro p hp
    unfold read_students_list rosterScan at hp
    rcases rosterScan_fold_sound (g.drop 2) (ncols (g.drop 2)) [] p hp with
      h | ⟨hw, rest⟩
    · exact absurd h (List.not_mem_nil p)
    · exact ⟨hw, rest⟩
  · intro row hrow n gr hw h1 h2 hne hdig
    unfold read_students_list rosterScan
    exact rosterScan_fold_adds (g.drop 2) _ [] row n gr hrow hw h1 h2 hne hdig

/-- Witness for C5 on the concrete three-row grid. -/
theorem roster_fixed_columns_spot :
    3 ≤ ncols ([[], [], [Cell.str "x", Cell.str "ab", Cell.str "G1"]].drop 2) :=
  ((roster_fixed_columns [[], [], [Cell.str "x", Cell.str "ab", Cell.str "G1"]]).1
    ("ab", "G1") (by decide)).1

/-- C6 (amended): the two leading rows are skipped unconditionally;
when everything usable lies within them the parser returns the empty
mapping — there is no fallback rescan from the first row. -/
theorem roster_no_fallback (g : List (List Cell)) (h : g.length ≤ 2) :
    read_students_list g = [] := by
  unfold read_students_list
  rw [List.drop_eq_nil_of_le h]
  rfl

/-- Witness for C6 on the one-row grid of the counterexample. -/
theorem roster_no_fallback_spot :
    read_students_list [[Cell.str "x", Cell.str "Ivanov Ivan", Cell.str "G1"]] =
      [] :=
  roster_no_fallback [[Cell.str "x", Cell.str "Ivanov Ivan", Cell.str "G1"]]
    (by decide)

/-- A filter and its complement partition a list's length. -/
theorem length_filter_add_not {α : Type} (p : α → Bool) :
    ∀ l : List α,
      (l.filter p).length + (l.filter (fun a => !(p a))).length = l.length := by
  intro l
  induction l with
  | nil => rfl
  | cons a l ih =>
    by_cases ha : p a = true
    · simp only [List.filter_cons, ha, if_true, Bool.not_true,
        Bool.false_eq_true, if_false, List.length_cons]
      omega
    · have ha' : p a = false := by simpa using ha
      simp only [List.filter_cons, ha', Bool.not_false, Bool.false_eq_true,
        if_false, if_true, List.length_cons]
      omega

/-- Filtering commutes with flattening. -/
theorem filter_flatten_comm {α : Type} (p : α → Bool) :
    ∀ L : List (List α), L.flatten.filter p = (L.map (List.filter p)).flatten := by
  intro L
  induction L with
  | nil => rfl
  | cons l L ih =>
    simp only [List.flatten_cons, List.filter_append, List.map_cons, ih]

/-- Filtering commutes with mapping. -/
theorem filter_map_comm {α β : Type} (f : α → β) (p : β → Bool) :
    ∀ l : List α, (l.map f).filter p = (l.filter (fun a => p (f a))).map f := by
  intro l
  induction l with
  | nil => rfl
  | cons a l ih =>
    by_cases ha : p (f a) = true <;>
      simp [List.filter_cons, ha, ih]

/-- Entries dropped by a filter that yields empty lists do not affect
the flattened image. -/
theorem flatten_map_sub {α β : Type} (q : α → Bool) (f : α → List β) :
    ∀ l : List α, (∀ x ∈ l, q x = false → f x = []) →
      ((l.filter q).map f).flatten = (l.map f).flatten := by
  intro l
  induction l with
  | nil => intro; rfl
  | cons a l ih =>
    intro h
    by_cases ha : q a = true
    · simp only [List.filter_cons, ha, if_true, List.map_cons,
        List.flatten_cons, ih fun x hx => h x (List.mem_cons_of_mem _ hx)]
    · have ha' : q a = false := by simpa using ha
      have hfa : f a = [] := h a (List.mem_cons_self _ _) ha'
      simp only [List.filter_cons, ha', Bool.false_eq_true, if_false,
        List.map_cons, List.flatten_cons, hfa, List.nil_append,
        ih fun x hx => h x (List.mem_cons_of_mem _ hx)]

/-- Membership of the first-occurrence deduplication helper. -/
theorem mem_firstDedupAux :
    ∀ (l seen : List String) (a : String),
      a ∈ firstDedupAux l seen ↔ a ∈ l ∧ a ∉ seen := by
  intro l
  induction l with
  | nil =>
    intro seen a
    simp [firstDedupAux]
  | cons b l ih =>
    intro seen a
    by_cases hb : seen.contains b = true
    · rw [firstDedupAux, if_pos hb, ih]
      have hbmem : b ∈ seen := by simpa using hb
      constructor
      · rintro ⟨h1, h2⟩
        exact ⟨List.mem_cons_of_mem _ h1, h2⟩
      · rintro ⟨h1, h2⟩
        rcases List.mem_cons.mp h1 with rfl | h1'
        · exact absurd hbmem h2
        · exact ⟨h1', h2⟩
    · rw [firstDedupAux, if_neg hb]
      constructor
      · intro h
        rcases List.mem_cons.mp h with rfl | h'
        · exact ⟨List.mem_cons_self _ _, by simpa using hb⟩
        · obtain ⟨h1, h2⟩ := (ih _ a).mp h'
          exact ⟨List.mem_cons_of_mem _ h1,
            fun hx => h2 (List.mem_cons_of_mem _ hx)⟩
      · rintro ⟨h1, h2⟩
        rcases List.mem_cons.mp h1 with rfl | h1'
        · exact List.mem_cons_self _ _
        · by_cases hab : a = b
          · subst hab
            exact List.mem_cons_self _ _
          · refine List.mem_cons_of_mem _ ((ih _ a).mpr ⟨h1', ?_⟩)
            intro hx
            rcases List.mem_cons.mp hx with h | h
            · exact hab h
            · exact h2 h

/-- The deduplicated key list has no duplicates. -/
theorem nodup_firstDedupAux :
    ∀ (l seen : List String), (firstDedupAux l seen).Nodup := by
  intro l
  induction l with
  | nil =>
    intro seen
    exact List.nodup_nil
  | cons b l ih =>
    intro seen
    by_cases hb : seen.contains b = true
    · rw [firstDedupAux, if_pos hb]
      exact ih seen
    · rw [firstDedupAux, if_neg hb]
      refine List.nodup_cons.mpr ⟨?_, ih _⟩
      intro hmem
      exact ((mem_firstDedupAux l (b :: seen) b).mp hmem).2
        (List.mem_cons_self _ _)

/-- Deduplication preserves membership. -/
theorem mem_firstDedup (l : List String) (a : String) :
    a ∈ firstDedup l ↔ a ∈ l := by
  unfold firstDedup
  rw [mem_firstDedupAux]
  simp

/-- A filter whose predicate characterizes a single member of a
duplicate-free list yields exactly that member. -/
theorem filter_eq_singleton {α : Type} (p : α → Bool) (x : α) :
    ∀ l : List α, x ∈ l → (∀ y ∈ l, p y = true ↔ y = x) → l.Nodup →
      l.filter p = [x] := by
  intro l
  induction l with
  | nil =>
    intro hx
    exact absurd hx (List.not_mem_nil x)
  | cons a l ih =>
    intro hx hiff hnd
    rcases List.mem_cons.mp hx with rfl | hx'
    · have hrest : l.filter p = [] := by
        rw [List.filter_eq_nil_iff]
        intro y hy hpy
        have : y = x := (hiff y (List.mem_cons_of_mem _ hy)).mp hpy
        subst this
        exact (List.nodup_cons.mp hnd).1 hy
      rw [List.filter_cons,
        if_pos ((hiff x (List.mem_cons_self _ _)).mpr rfl), hrest]
    · have hpa : p a = false := by
        by_contra hcon
        have hpa' : p a = true := by simpa using hcon
        have : a = x := (hiff a (List.mem_cons_self _ _)).mp hpa'
        subst this
        exact (List.nodup_cons.mp hnd).1 hx'
      rw [List.filter_cons, hpa]
      simp only [Bool.false_eq_true, if_false]
      exact ih hx' (fun y hy => hiff y (List.mem_cons_of_mem _ hy))
        (List.nodup_cons.mp hnd).2

/-- Flattening a per-key image that is a singleton at exactly one key
of a duplicate-free key list. -/
theorem flatten_map_eq_single {β : Type} (g0 : String) (f : String → List β)
    (x : β) :
    ∀ keys : List String, keys.Nodup → g0 ∈ keys →
      (∀ g ∈ keys, f g = if g = g0 then [x] else []) →
      (keys.map f).flatten = [x] := by
  intro keys
  induction keys with
  | nil =>
    intro _ hmem
    exact absurd hmem (List.not_mem_nil g0)
  | cons k ks ih =>
    intro hnd hmem hf
    rcases List.mem_cons.mp hmem with rfl | hmem'
    · have hks : (ks.map f).flatten = [] := by
        rw [List.flatten_eq_nil_iff]
        intro l hl
        obtain ⟨g, hg, rfl⟩ := List.mem_map.mp hl
        have hgne : g ≠ g0 := fun he => (List.nodup_cons.mp hnd).1 (he ▸ hg)
        rw [hf g (List.mem_cons_of_mem _ hg), if_neg hgne]
      rw [List.map_cons, List.flatten_cons, hf g0 (List.mem_cons_self _ _),
        if_pos rfl, hks, List.append_nil]
    · have hkne : k ≠ g0 := fun he => (List.nodup_cons.mp hnd).1 (he ▸ hmem')
      have h1 : f k = [] := by
        rw [hf k (List.mem_cons_self _ _), if_neg hkne]
      rw [List.map_cons, List.flatten_cons, h1, List.nil_append]
      exact ih (List.nodup_cons.mp hnd).2 hmem'
        fun g hg => hf g (List.mem_cons_of_mem _ hg)

/-- A student row carries the student's name. -/
theorem studentRow_name (t : Table) (tests : List (String × String))
    (p : String × String) : (studentRow t tests p).name = p.1 := by
  cases h : find_student_in_results p.1 t <;>
    simp [studentRow, h, buildRow, naRow]

/-- A student row carries the student's group. -/
theorem studentRow_group (t : Table) (tests : List (String × String))
    (p : String × String) : (studentRow t tests p).group = p.2 := by
  cases h : find_student_in_results p.1 t <;>
    simp [studentRow, h, buildRow, naRow]

/-- An unmatched student's row is the all-`'н'` row. -/
theorem studentRow_unmatched (t : Table) (tests : List (String × String))
    (p : String × String) (h : find_student_in_results p.1 t = none) :
    studentRow t tests p = naRow p.1 p.2 tests := by
  simp [studentRow, h]

/-- Every grade of an all-`'н'` row is the sentinel. -/
theorem naRow_grades (name group : String) (tests : List (String × String)) :
    ∀ q ∈ (naRow name group tests).grades, q.2 = Grade.notAvailable := by
  intro q hq
  obtain ⟨pr, -, rfl⟩ := List.mem_map.mp hq
  rfl

/-- Filtering the rows of a generated document equals filtering the
underlying per-group data (empty groups contribute nothing). -/
theorem docRows_categoryFile (fname : String) (tests : List (String × String))
    (data : List (String × List OutRow)) (pred : OutRow → Bool)
    (dd : Doc) (hdd : dd ∈ categoryFile fname tests data) :
    (docRows dd).filter pred = (data.map (fun pr => pr.2.filter pred)).flatten := by
  unfold categoryFile at hdd
  by_cases hne : data.filter (fun pr => pr.2 ≠ []) = []
  · rw [if_pos hne] at hdd
    exact absurd hdd (List.not_mem_nil dd)
  · rw [if_neg hne] at hdd
    rw [List.mem_singleton.mp hdd]
    have hrows : docRows
        { filename := fname,
          header := "ФИО" :: "Группа" :: tests.map (fun p => p.2),
          sheets := (data.filter (fun p => p.2 ≠ [])).map
            (fun p => (String.mk (p.1.data.take 31), p.2)) } =
        ((data.filter (fun p => p.2 ≠ [])).map (fun pr => pr.2)).flatten := by
      unfold docRows
      rw [List.map_map]
      rfl
    rw [hrows, filter_flatten_comm, List.map_map]
    refine Eq.trans ?_ (flatten_map_sub (fun pr => pr.2 ≠ [])
      (fun pr => pr.2.filter pred) data
      fun x _ hxf => by
        have hx2 : x.2 = [] := by simpa using hxf
        show x.2.filter pred = []
        rw [hx2]
        rfl)
    rfl

/-- Every document a category emits carries that category's filename. -/
theorem categoryFile_filename (fname : String) (tests : List (String × String))
    (data : List (String × List OutRow)) (dd : Doc)
    (hdd : dd ∈ categoryFile fname tests data) : dd.filename = fname := by
  unfold categoryFile at hdd
  by_cases hne : data.filter (fun pr => pr.2 ≠ []) = []
  · rw [if_pos hne] at hdd
    exact absurd hdd (List.not_mem_nil dd)
  · rw [if_neg hne] at hdd
    rw [List.mem_singleton.mp hdd]

/-- For a roster with unique names, an unmatched selected student
yields, in the (flag-enabled, non-empty-test) category file, exactly
one row bearing their name, and it is the all-`'н'` row. -/
theorem unmatched_na_row (t : Table) (d : List (String × String))
    (sel : List String) (tests : List (String × String)) (fname : String)
    (hnd : (d.map Prod.fst).Nodup) (p : String × String)
    (hp : p ∈ rosterFiltered d sel)
    (hnf : find_student_in_results p.1 t = none)
    (hts : tests ≠ []) :
    ∃ dd ∈ categoryFile fname tests (categoryData t true tests d sel),
      dd.filename = fname ∧
      (docRows dd).filter (fun r => r.name = p.1) = [naRow p.1 p.2 tests] := by
  have hFnd : ((rosterFiltered d sel).map Prod.fst).Nodup :=
    List.Nodup.sublist ((List.filter_sublist d).map Prod.fst) hnd
  have hFnodup : (rosterFiltered d sel).Nodup := List.Nodup.of_map Prod.fst hFnd
  have hqp : ∀ q ∈ rosterFiltered d sel, q.1 = p.1 → q = p :=
    fun q hq he => List.inj_on_of_nodup_map hFnd hq hp he
  have hpsel : p.2 ∈ sel := by
    have h2 := (List.mem_filter.mp hp).2
    simpa using h2
  have hkey : p.2 ∈ firstDedup sel := (mem_firstDedup sel p.2).mpr hpsel
  have hknd : (firstDedup sel).Nodup := nodup_firstDedupAux sel []
  have hdata : categoryData t true tests d sel =
      (firstDedup sel).map (fun g =>
        (g, ((rosterFiltered d sel).filter (fun q => q.2 = g)).map
          (studentRow t tests))) := by
    unfold categoryData
    rw [if_pos ⟨rfl, hts⟩]
  have hprow : naRow p.1 p.2 tests ∈
      ((rosterFiltered d sel).filter (fun q => q.2 = p.2)).map
        (studentRow t tests) := by
    rw [← studentRow_unmatched t tests p hnf]
    exact List.mem_map.mpr ⟨p, List.mem_filter.mpr ⟨hp, by simp⟩, rfl⟩
  have hgfilter : ∀ g,
      ((((rosterFiltered d sel).filter (fun q => q.2 = g)).map
        (studentRow t tests)).filter (fun r => r.name = p.1)) =
      if g = p.2 then [naRow p.1 p.2 tests] else [] := by
    intro g
    rw [filter_map_comm]
    have hstep : ((rosterFiltered d sel).filter (fun q => q.2 = g)).filter
          (fun a => decide ((studentRow t tests a).name = p.1)) =
        ((rosterFiltered d sel).filter (fun q => q.2 = g)).filter
          (fun a => decide (a.1 = p.1)) :=
      List.filter_congr fun a _ => by rw [studentRow_name]
    rw [hstep, List.filter_filter]
    by_cases hg : g = p.2
    · rw [if_pos hg]
      have hsingle : (rosterFiltered d sel).filter
          (fun a => decide (a.1 = p.1) && decide (a.2 = g)) = [p] := by
        refine filter_eq_singleton _ p (rosterFiltered d sel) hp ?_ hFnodup
        intro y hy
        constructor
        · intro hy2
          have hands : y.1 = p.1 ∧ y.2 = g := by simpa using hy2
          exact hqp y hy hands.1
        · intro hyp
          rw [hyp]
          simp [hg]
      rw [hsingle, List.map_cons, List.map_nil,
        studentRow_unmatched t tests p hnf]
    · rw [if_neg hg]
      have hnil : (rosterFiltered d sel).filter
          (fun a => decide (a.1 = p.1) && decide (a.2 = g)) = [] := by
        rw [List.filter_eq_nil_iff]
        intro y hy hy2
        have hands : y.1 = p.1 ∧ y.2 = g := by simpa using hy2
        have hyp : y = p := hqp y hy hands.1
        rw [hyp] at hands
        exact hg hands.2.symm
      rw [hnil, List.map_nil]
  have hne : ¬ ((categoryData t true tests d sel).filter
      (fun pr => pr.2 ≠ []) = []) := by
    rw [hdata]
    intro hcon
    rw [List.filter_eq_nil_iff] at hcon
    exact hcon (p.2, ((rosterFiltered d sel).filter (fun q => q.2 = p.2)).map
        (studentRow t tests))
      (List.mem_map.mpr ⟨p.2, hkey, rfl⟩)
      (by simpa using List.ne_nil_of_mem hprow)
  have hfile : categoryFile fname tests (categoryData t true tests d sel) =
      [{ filename := fname,
         header := "ФИО" :: "Группа" :: tests.map (fun q => q.2),
         sheets := ((categoryData t true tests d sel).filter
             (fun pr => pr.2 ≠ [])).map
           (fun pr => (String.mk (pr.1.data.take 31), pr.2)) }] := by
    unfold categoryFile
    rw [if_neg hne]
  refine ⟨_, by rw [hfile]; exact List.mem_singleton.mpr rfl, rfl, ?_⟩
  rw [docRows_categoryFile fname tests _ _ _
    (by rw [hfile]; exact List.mem_singleton.mpr rfl)]
  rw [hdata, List.map_map]
  exact flatten_map_eq_single p.2 _ (naRow p.1 p.2 tests) (firstDedup sel)
    hknd hkey fun g _ => hgfilter g

/-- C8: matched plus unmatched counts equal the number of selected
roster entries; the matched count is one per student with a found row
(independent of category flags); and each unmatched selected student
receives exactly one all-`'н'` row in every enabled non-empty
category's document. -/
theorem reconcile_counts (t : Table) (d : List (String × String))
    (sel : List String) (fl fb ff : Bool)
    (hnd : (d.map Prod.fst).Nodup) :
    (process_data t d sel fl fb ff).2.1 + (process_data t d sel fl fb ff).2.2 =
        (rosterFiltered d sel).length ∧
    (process_data t d sel fl fb ff).2.1 =
        ((rosterFiltered d sel).filter
          (fun p => (find_student_in_results p.1 t).isSome)).length ∧
    (∀ (name group : String) (tests : List (String × String)),
      ∀ q ∈ (naRow name group tests).grades, q.2 = Grade.notAvailable) ∧
    ∀ p ∈ rosterFiltered d sel, find_student_in_results p.1 t = none →
      (fl = true → lectureTests t ≠ [] →
        ∃ dd ∈ (process_data t d sel fl fb ff).1,
          dd.filename = "Лекции_результаты.xlsx" ∧
          (docRows dd).filter (fun r => r.name = p.1) =
            [naRow p.1 p.2 (lectureTests t)]) ∧
      (fb = true → labTests t ≠ [] →
        ∃ dd ∈ (process_data t d sel fl fb ff).1,
          dd.filename = "Лабораторные_результаты.xlsx" ∧
          (docRows dd).filter (fun r => r.name = p.1) =
            [naRow p.1 p.2 (labTests t)]) ∧
      (ff = true → finalTests t ≠ [] →
        ∃ dd ∈ (process_data t d sel fl fb ff).1,
          dd.filename = "Итоговые_результаты.xlsx" ∧
          (docRows dd).filter (fun r => r.name = p.1) =
            [naRow p.1 p.2 (finalTests t)]) := by
  refine ⟨?_, rfl, fun name group tests => naRow_grades name group tests, ?_⟩
  · exact length_filter_add_not
      (fun q => (find_student_in_results q.1 t).isSome) (rosterFiltered d sel)
  · intro p hp hnf
    refine ⟨?_, ?_, ?_⟩
    · intro hfl hts
      subst hfl
      obtain ⟨dd, hdd, hname, hfilter⟩ := unmatched_na_row t d sel
        (lectureTests t) "Лекции_результаты.xlsx" hnd p hp hnf hts
      exact ⟨dd, List.mem_append_left _ (List.mem_append_left _ hdd),
        hname, hfilter⟩
    · intro hfb hts
      subst hfb
      obtain ⟨dd, hdd, hname, hfilter⟩ := unmatched_na_row t d sel
        (labTests t) "Лабораторные_результаты.xlsx" hnd p hp hnf hts
      exact ⟨dd, List.mem_append_left _ (List.mem_append_right _ hdd),
        hname, hfilter⟩
    · intro hff hts
      subst hff
      obtain ⟨dd, hdd, hname, hfilter⟩ := unmatched_na_row t d sel
        (finalTests t) "Итоговые_результаты.xlsx" hnd p hp hnf hts
      exact ⟨dd, List.mem_append_right _ hdd, hname, hfilter⟩

/-- Witness for C8 on a two-student roster with one selected,
unmatched student. -/
theorem reconcile_counts_spot :
    (process_data ⟨["фио", "лекция тест"], [[Cell.str "ivanov ivan", Cell.str "8"]]⟩
        [("Ivanov Ivan", "G1"), ("Petrov Petr", "G2")] ["G2"] true true true).2.1 +
      (process_data ⟨["фио", "лекция тест"], [[Cell.str "ivanov ivan", Cell.str "8"]]⟩
        [("Ivanov Ivan", "G1"), ("Petrov Petr", "G2")] ["G2"] true true true).2.2 =
      1 := by
  have h := (reconcile_counts
    ⟨["фио", "лекция тест"], [[Cell.str "ivanov ivan", Cell.str "8"]]⟩
    [("Ivanov Ivan", "G1"), ("Petrov Petr", "G2")] ["G2"] true true true
    (by decide)).1
  rw [h]
  decide

/-- A category's file block is empty or a single document carrying the
category's filename. -/
theorem categoryFile_cases (fname : String) (tests : List (String × String))
    (data : List (String × List OutRow)) :
    categoryFile fname tests data = [] ∨
    ∃ dd : Doc, categoryFile fname tests data = [dd] ∧ dd.filename = fname := by
  unfold categoryFile
  by_cases hne : data.filter (fun pr => pr.2 ≠ []) = []
  · left
    rw [if_pos hne]
  · right
    exact ⟨_, by rw [if_neg hne], rfl⟩

/-- Filtering a category's file block by its own filename keeps it. -/
theorem filter_name_categoryFile_self (fname : String)
    (tests : List (String × String)) (data : List (String × List OutRow)) :
    (categoryFile fname tests data).filter (fun dd => dd.filename = fname) =
      categoryFile fname tests data := by
  rcases categoryFile_cases fname tests data with h | ⟨dd, h, hn⟩
  · rw [h]
    rfl
  · rw [h, List.filter_cons]
    simp [hn]

/-- Filtering a category's file block by another filename drops it. -/
theorem filter_name_categoryFile_other (fname fname2 : String)
    (tests : List (String × String)) (data : List (String × List OutRow))
    (hne : fname2 ≠ fname) :
    (categoryFile fname tests data).filter (fun dd => dd.filename = fname2) =
      [] := by
  rcases categoryFile_cases fname tests data with h | ⟨dd, h, hn⟩
  · rw [h]
    rfl
  · rw [h, List.filter_cons]
    simp [hn, Ne.symm hne]

/-- A category emits one document when it has rows and none otherwise. -/
theorem categoryFile_length (fname : String) (tests : List (String × String))
    (data : List (String × List OutRow)) :
    (categoryFile fname tests data).length =
      if (data.map (fun pr => pr.2)).flatten ≠ [] then 1 else 0 := by
  unfold categoryFile
  by_cases hne : data.filter (fun pr => pr.2 ≠ []) = []
  · rw [if_pos hne]
    have hflat : (data.map (fun pr => pr.2)).flatten = [] := by
      rw [List.flatten_eq_nil_iff]
      intro l hl
      obtain ⟨pr, hpr, rfl⟩ := List.mem_map.mp hl
      have := List.filter_eq_nil_iff.mp hne pr hpr
      simpa using this
    simp [hflat]
  · rw [if_neg hne]
    have hex : ∃ pr ∈ data, pr.2 ≠ [] := by
      by_contra hcon
      push_neg at hcon
      exact hne (List.filter_eq_nil_iff.mpr fun pr hpr => by simp [hcon pr hpr])
    have hflat : (data.map (fun pr => pr.2)).flatten ≠ [] := by
      obtain ⟨pr, hpr, hpr2⟩ := hex
      intro hcon
      rw [List.flatten_eq_nil_iff] at hcon
      exact hpr2 (hcon pr.2 (List.mem_map.mpr ⟨pr, hpr, rfl⟩))
    simp [hflat]

/-- Every row of every sheet of a category document belongs to a
selected group. -/
theorem categoryFile_groups (fname : String) (t : Table) (flag : Bool)
    (tests : List (String × String)) (d : List (String × String))
    (sel : List String) (dd : Doc)
    (hdd : dd ∈ categoryFile fname tests (categoryData t flag tests d sel)) :
    ∀ sh ∈ dd.sheets, ∀ r ∈ sh.2, r.group ∈ sel := by
  unfold categoryFile at hdd
  by_cases hne : (categoryData t flag tests d sel).filter
      (fun pr => pr.2 ≠ []) = []
  · rw [if_pos hne] at hdd
    exact absurd hdd (List.not_mem_nil dd)
  · rw [if_neg hne] at hdd
    rw [List.mem_singleton.mp hdd]
    intro sh hsh r hr
    obtain ⟨pr, hpr, rfl⟩ := List.mem_map.mp hsh
    have hprdata : pr ∈ categoryData t flag tests d sel :=
      (List.mem_filter.mp hpr).1
    unfold categoryData at hprdata
    by_cases hcond : flag = true ∧ tests ≠ []
    · rw [if_pos hcond] at hprdata
      obtain ⟨g, -, rfl⟩ := List.mem_map.mp hprdata
      obtain ⟨q, hq, rfl⟩ := List.mem_map.mp hr
      have hqF : q ∈ rosterFiltered d sel := (List.mem_filter.mp hq).1
      have hcontains := (List.mem_filter.mp hqF).2
      rw [studentRow_group]
      simpa using hcontains
    · rw [if_neg hcond] at hprdata
      obtain ⟨g, -, rfl⟩ := List.mem_map.mp hprdata
      exact absurd hr (List.not_mem_nil r)

/-- C9: exactly one document is produced per category whose row set is
non-empty (and none when it is empty, even if flagged), and no
document contains a row for a student whose group is outside the
selected groups. -/
theorem report_documents (t : Table) (d : List (String × String))
    (sel : List String) (fl fb ff : Bool) :
    ((process_data t d sel fl fb ff).1.filter
        (fun dd => dd.filename = "Лекции_результаты.xlsx")).length =
      (if categoryRows t fl (lectureTests t) d sel ≠ [] then 1 else 0) ∧
    ((process_data t d sel fl fb ff).1.filter
        (fun dd => dd.filename = "Лабораторные_результаты.xlsx")).length =
      (if categoryRows t fb (labTests t) d sel ≠ [] then 1 else 0) ∧
    ((process_data t d sel fl fb ff).1.filter
        (fun dd => dd.filename = "Итоговые_результаты.xlsx")).length =
      (if categoryRows t ff (finalTests t) d sel ≠ [] then 1 else 0) ∧
    ∀ dd ∈ (process_data t d sel fl fb ff).1, ∀ sh ∈ dd.sheets,
      ∀ r ∈ sh.2, r.group ∈ sel := by
  have hfiles : (process_data t d sel fl fb ff).1 =
      categoryFile "Лекции_результаты.xlsx" (lectureTests t)
          (categoryData t fl (lectureTests t) d sel) ++
        categoryFile "Лабораторные_результаты.xlsx" (labTests t)
          (categoryData t fb (labTests t) d sel) ++
        categoryFile "Итоговые_результаты.xlsx" (finalTests t)
          (categoryData t ff (finalTests t) d sel) := rfl
  refine ⟨?_, ?_, ?_, ?_⟩
  · rw [hfiles, List.filter_append, List.filter_append,
      filter_name_categoryFile_self,
      filter_name_categoryFile_other _ _ _ _ (by decide),
      filter_name_categoryFile_other _ _ _ _ (by decide),
      List.append_nil, List.append_nil, categoryFile_length]
    rfl
  · rw [hfiles, List.filter_append, List.filter_append,
      filter_name_categoryFile_self,
      filter_name_categoryFile_other _ _ _ _ (by decide),
      filter_name_categoryFile_other _ _ _ _ (by decide),
      List.nil_append, List.append_nil, categoryFile_length]
    rfl
  · rw [hfiles, List.filter_append, List.filter_append,
      filter_name_categoryFile_self,
      filter_name_categoryFile_other _ _ _ _ (by decide),
      filter_name_categoryFile_other _ _ _ _ (by decide),
      List.nil_append, List.nil_append, categoryFile_length]
    rfl
  · intro dd hdd
    rw [hfiles] at hdd
    rcases List.mem_append.mp hdd with hab | hc
    · rcases List.mem_append.mp hab with ha | hb
      · exact categoryFile_groups _ t fl _ d sel dd ha
      · exact categoryFile_groups _ t fb _ d sel dd hb
    · exact categoryFile_groups _ t ff _ d sel dd hc

/-- Witness for C9: one lecture document on a matched one-student
selection. -/
theorem report_documents_spot :
    ((process_data ⟨["фио", "лекция тест"], [[Cell.str "ivanov ivan", Cell.str "8"]]⟩
        [("Ivanov Ivan", "G1"), ("Petrov Petr", "G2")] ["G1"] true true
        true).1.filter
      (fun dd => dd.filename = "Лекции_результаты.xlsx")).length = 1 := by
  have h := (report_documents
    ⟨["фио", "лекция тест"], [[Cell.str "ivanov ivan", Cell.str "8"]]⟩
    [("Ivanov Ivan", "G1"), ("Petrov Petr", "G2")] ["G1"] true true true).1
  rw [h]
  decide
